import Mathlib

/-!
Verification of the gogiturl repository: a parser for Git remote
repository addresses.  The repository holds two variants of the same
package: `src/gogiturl.go` (functions `Parse`, `parse`, `getScheme`) and
`src/unnamed/part_000` (functions `Parse`, `mungeGitURL`, `getscheme`).
Both wrap the external generic URI parser `net/url.Parse`.

Go strings are modelled as `List Char` (the inputs of interest are
ASCII, where Go's byte indexing and the character list coincide).
Fallible Go functions return `Except GoErr`; a Go runtime panic (nil
pointer dereference, slice out of range) is modelled by the dedicated
result `GoResult.panic`.
-/

set_option maxRecDepth 10000

abbrev Str := List Char

/-- Errors of the modelled code.  Go represents errors as values built with
`errors.New`/`fmt.Errorf`; each distinct error site gets one constructor.
(`missingDelimiter` covers both copies of the munge error, whose messages
differ only in capitalisation.) -/
inductive GoErr where
  /-- net/url: "net/url: invalid control character in URL" -/
  | ctl
  /-- net/url getScheme: "missing protocol scheme" (also the message used by
  src/gogiturl.go's getScheme for all of its error returns) -/
  | missingScheme
  /-- part_000 getscheme: "no scheme" -/
  | noScheme
  /-- part_000 getscheme: "invalid character in scheme" -/
  | invalidSchemeChar
  /-- part_000 Parse: "malformed URL contains scheme only" -/
  | schemeOnly
  /-- both munge sites: "no colon (:) in URL to delimit host:path boundary;
  unable to munge Git remote edge case" -/
  | missingDelimiter
  /-- net/url parse: "first path segment in URL cannot contain colon" -/
  | firstSegmentColon
  /-- net/url parseHost: invalid port after host -/
  | invalidPort (p : Str)
  /-- net/url parseHost: "missing ']' in host" -/
  | missingBracket
  /-- net/url parseAuthority: "net/url: invalid userinfo" -/
  | invalidUserinfo
  /-- net/url unescape: EscapeError (payload is the offending substring) -/
  | escapeError (s : Str)
  /-- net/url unescape: InvalidHostError (payload is the offending char) -/
  | invalidHostChar (c : Char)
deriving DecidableEq, Repr

/-- net/url Userinfo: username and optional password. -/
structure Userinfo where
  username : Str
  password : Option Str := none
deriving DecidableEq, Repr

/-- net/url URL value: the components exposed to the caller.  `opaquePart`
models the `Opaque` field (rootless scheme-qualified data).  `RawPath`,
`RawFragment` and `OmitHost` are bookkeeping fields with no independent
information and are not modelled. -/
structure URL where
  scheme : Str := []
  opaquePart : Str := []
  user : Option Userinfo := none
  host : Str := []
  path : Str := []
  rawQuery : Str := []
  forceQuery : Bool := false
  fragment : Str := []
deriving DecidableEq, Repr

/-- Result of the repository's `Parse` functions: a parsed URL, a Go error,
or a Go runtime panic. -/
inductive GoResult where
  | ok (u : URL)
  | err (e : GoErr)
  | panic
deriving DecidableEq, Repr

deriving instance DecidableEq for Except

/- ### Go string primitives -/

/-- strings.Index with a single-character needle, as `Option Nat`
(`none` models Go's -1). -/
def stringsIndex : Str → Char → Option Nat
  | [], _ => none
  | c :: s, k => if c = k then some 0 else (stringsIndex s k).map (· + 1)

/-- strings.LastIndex with a single-character needle. -/
def stringsLastIndex : Str → Char → Option Nat
  | [], _ => none
  | c :: s, k =>
    match stringsLastIndex s k with
    | some i => some (i + 1)
    | none => if c = k then some 0 else none

/-- strings.Contains with a single-character needle. -/
def containsChar : Str → Char → Bool
  | [], _ => false
  | c :: s, k => c = k || containsChar s k

/-- strings.Cut with a single-character separator: (before, after); when the
separator is absent, after is empty. -/
def cutc : Str → Char → Str × Str
  | [], _ => ([], [])
  | c :: s, k =>
    if c = k then ([], s)
    else
      let p := cutc s k
      (c :: p.1, p.2)

/-- strings.Replace(s, old, new, 1) with single-character old/new. -/
def replaceFirst : Str → Char → Char → Str
  | [], _, _ => []
  | c :: s, o, n => if c = o then n :: s else c :: replaceFirst s o n

def isAlphaChar (c : Char) : Bool :=
  ('a' ≤ c && c ≤ 'z') || ('A' ≤ c && c ≤ 'Z')

def isDigitChar (c : Char) : Bool :=
  '0' ≤ c && c ≤ '9'

/-- Scheme characters allowed after position 0 besides letters. -/
def isSchemeExtra (c : Char) : Bool :=
  isDigitChar c || c = '+' || c = '-' || c = '.'

/-- strings.ToLower restricted to ASCII (scheme tokens contain only ASCII). -/
def toLowerStr (s : Str) : Str :=
  s.map (fun c => if 'A' ≤ c && c ≤ 'Z' then Char.ofNat (c.toNat + 32) else c)

/-- net/url stringContainsCTLByte. -/
def containsCTL (s : Str) : Bool :=
  s.any (fun c => c.toNat < 32 || c.toNat == 127)

def startsWithSlash : Str → Bool
  | '/' :: _ => true
  | _ => false

def startsWith2Slash : Str → Bool
  | '/' :: '/' :: _ => true
  | _ => false

def startsWith3Slash : Str → Bool
  | '/' :: '/' :: '/' :: _ => true
  | _ => false

/- ### Modelled from the spec: the generic URI parser collaborator.

The spec (§6) requires an external, standards-conformant URI parser
returning scheme/user-info/host/port/path/query/fragment or failing on a
syntactically invalid URI reference.  The code under src/ calls Go's
`net/url.Parse`; that library is not part of the repository, so it is
modelled here following net/url's algorithm (Parse with viaRequest=false).
IPv6 zone identifiers (`%25` inside brackets) and the RawPath/RawFragment
round-trip hints are not modelled; no claim touches them. -/

def ishex (c : Char) : Bool :=
  isDigitChar c || ('a' ≤ c && c ≤ 'f') || ('A' ≤ c && c ≤ 'F')

def unhex (c : Char) : Nat :=
  if isDigitChar c then c.toNat - '0'.toNat
  else if 'a' ≤ c && c ≤ 'f' then c.toNat - 'a'.toNat + 10
  else if 'A' ≤ c && c ≤ 'F' then c.toNat - 'A'.toNat + 10
  else 0

/-- The escaping modes of net/url that the parser uses. -/
inductive EncMode where
  | path
  | host
  | userPassword
  | fragment
deriving DecidableEq, Repr

/-- shouldEscape(c, encodeHost) for ASCII c: everything outside
alphanumerics, host sub-delims and unreserved marks must be escaped. -/
def hostShouldEscape (c : Char) : Bool :=
  !(isAlphaChar c || isDigitChar c ||
    c ∈ ['!', '$', '&', '\'', '(', ')', '*', '+', ',', ';', '=',
         ':', '[', ']', '<', '>', '"', '-', '_', '.', '~'])

/-- net/url unescape: validates %-escapes (and, in host mode, the extra
RFC 3986/6874 restrictions) and decodes them. -/
def unescape (s : Str) (mode : EncMode) : Except GoErr Str :=
  match s with
  | [] => .ok []
  | '%' :: a :: b :: rest =>
    if ishex a && ishex b then
      if mode = .host && unhex a < 8 && !(a = '2' && b = '5') then
        .error (.escapeError ['%', a, b])
      else
        match unescape rest mode with
        | .error e => .error e
        | .ok t => .ok (Char.ofNat (16 * unhex a + unhex b) :: t)
    else .error (.escapeError ['%', a, b])
  | '%' :: short => .error (.escapeError ('%' :: short))
  | c :: rest =>
    if mode = .host && c.toNat < 128 && hostShouldEscape c then
      .error (.invalidHostChar c)
    else
      match unescape rest mode with
      | .error e => .error e
      | .ok t => .ok (c :: t)

/-- net/url validOptionalPort. -/
def validOptionalPort : Str → Bool
  | [] => true
  | ':' :: digits => digits.all isDigitChar
  | _ => false

/-- net/url validUserinfo. -/
def validUserinfo (s : Str) : Bool :=
  s.all (fun c =>
    isAlphaChar c || isDigitChar c ||
    c ∈ ['-', '.', '_', ':', '~', '!', '$', '&', '\'', '(', ')', '*',
         '+', ',', ';', '=', '%', '@'])

/-- net/url parseHost. -/
def parseHost (host : Str) : Except GoErr Str :=
  match host with
  | '[' :: _ =>
    match stringsLastIndex host ']' with
    | none => .error .missingBracket
    | some i =>
      let colonPort := host.drop (i + 1)
      if validOptionalPort colonPort then unescape host .host
      else .error (.invalidPort colonPort)
  | _ =>
    match stringsLastIndex host ':' with
    | some i =>
      let colonPort := host.drop i
      if validOptionalPort colonPort then unescape host .host
      else .error (.invalidPort colonPort)
    | none => unescape host .host

/-- net/url parseAuthority: split at the last '@'; the host is validated
before the userinfo, as in the source. -/
def parseAuthority (authority : Str) : Except GoErr (Option Userinfo × Str) :=
  match stringsLastIndex authority '@' with
  | none =>
    match parseHost authority with
    | .error e => .error e
    | .ok h => .ok (none, h)
  | some i =>
    match parseHost (authority.drop (i + 1)) with
    | .error e => .error e
    | .ok h =>
      let userinfo := authority.take i
      if validUserinfo userinfo then
        if containsChar userinfo ':' then
          let p := cutc userinfo ':'
          match unescape p.1 .userPassword with
          | .error e => .error e
          | .ok un =>
            match unescape p.2 .userPassword with
            | .error e => .error e
            | .ok pw => .ok (some ⟨un, some pw⟩, h)
        else
          match unescape userinfo .userPassword with
          | .error e => .error e
          | .ok un => .ok (some ⟨un, none⟩, h)
      else .error .invalidUserinfo

/-- net/url getScheme: scan a scheme token.  Loop body for positions > 0;
`orig` is the whole input, returned as remainder when there is no scheme. -/
def netSchemeLoop (acc : Str) : Str → Str → Except GoErr (Str × Str)
  | [], orig => .ok ([], orig)
  | c :: rest, orig =>
    if isAlphaChar c then netSchemeLoop (acc ++ [c]) rest orig
    else if isSchemeExtra c then netSchemeLoop (acc ++ [c]) rest orig
    else if c = ':' then .ok (acc, rest)
    else .ok ([], orig)

/-- net/url getScheme: first character handled per the i == 0 cases. -/
def netGetScheme : Str → Except GoErr (Str × Str)
  | [] => .ok ([], [])
  | c :: rest =>
    if isAlphaChar c then netSchemeLoop [c] rest (c :: rest)
    else if isSchemeExtra c then .ok ([], c :: rest)
    else if c = ':' then .error .missingScheme
    else .ok ([], c :: rest)

/-- The query split of net/url parse: trailing lone '?' sets ForceQuery,
otherwise cut at the first '?'.  Returns (rest, rawQuery, forceQuery). -/
def splitQuery (rest : Str) : Str × Str × Bool :=
  if rest.getLast? = some '?' && !containsChar rest.dropLast '?' then
    (rest.dropLast, [], true)
  else
    let p := cutc rest '?'
    (p.1, p.2, false)

/-- The authority/rest split of net/url parse: `authority, rest = rest[2:], ""`
then cut at the first '/' of the authority. -/
def authoritySplit (rest1 : Str) : Str × Str :=
  match stringsIndex (rest1.drop 2) '/' with
  | some k => ((rest1.drop 2).take k, (rest1.drop 2).drop k)
  | none => (rest1.drop 2, ([] : Str))

/-- net/url parse, authority-and-path stage.  In the source the authority
block and setPath run after the opaque/first-segment checks; the Go
source computes (authority, rest) then falls through to setPath, which is
mirrored here. -/
def parseAuthPath (scheme : Str) (rest1 : Str) (rawQuery : Str)
    (forceQuery : Bool) : Except GoErr URL :=
  if (scheme ≠ [] || !startsWith3Slash rest1) && startsWith2Slash rest1 then
    match parseAuthority (authoritySplit rest1).1 with
    | .error e => .error e
    | .ok uh =>
      match unescape (authoritySplit rest1).2 .path with
      | .error e => .error e
      | .ok p =>
        .ok { scheme := scheme, user := uh.1, host := uh.2, path := p,
              rawQuery := rawQuery, forceQuery := forceQuery }
  else
    match unescape rest1 .path with
    | .error e => .error e
    | .ok p =>
      .ok { scheme := scheme, path := p,
            rawQuery := rawQuery, forceQuery := forceQuery }

/-- net/url parse, after the scheme has been split off and lowered. -/
def parseAfterScheme (scheme : Str) (rest0 : Str) : Except GoErr URL :=
  if !startsWithSlash (splitQuery rest0).1 then
    if scheme ≠ [] then
      .ok { scheme := scheme, opaquePart := (splitQuery rest0).1,
            rawQuery := (splitQuery rest0).2.1,
            forceQuery := (splitQuery rest0).2.2 }
    else if containsChar (cutc (splitQuery rest0).1 '/').1 ':' then
      .error .firstSegmentColon
    else parseAuthPath scheme (splitQuery rest0).1 (splitQuery rest0).2.1
      (splitQuery rest0).2.2
  else parseAuthPath scheme (splitQuery rest0).1 (splitQuery rest0).2.1
    (splitQuery rest0).2.2

/-- net/url parse with viaRequest = false (the fragment has already been
cut off by the wrapper). -/
def parseNet (rawURL : Str) : Except GoErr URL :=
  if containsCTL rawURL then .error .ctl
  else if rawURL = ['*'] then .ok { path := ['*'] }
  else
    match netGetScheme rawURL with
    | .error e => .error e
    | .ok sr => parseAfterScheme (toLowerStr sr.1) sr.2

/-- net/url Parse: cut the fragment, parse the rest, then set the
(unescaped) fragment. -/
def netURLParse (rawURL : Str) : Except GoErr URL :=
  match parseNet (cutc rawURL '#').1 with
  | .error e => .error e
  | .ok url =>
    if (cutc rawURL '#').2 = [] then .ok url
    else
      match unescape (cutc rawURL '#').2 .fragment with
      | .error e => .error e
      | .ok f => .ok { url with fragment := f }

/- ### The repository code under src/ -/

/-- "ssh://" (the scheme forced by the munge), as a character list. -/
def sshHead : Str := ['s', 's', 'h', ':', '/', '/']

/-- "file:///" (prepended by part_000's Parse to colon-free input). -/
def fileHead : Str := ['f', 'i', 'l', 'e', ':', '/', '/', '/']

/-- src/gogiturl.go getScheme (the repository's copy, "taken almost
verbatim from net/url" but returning an error in every no-scheme case):
loop body for positions > 0. -/
def repoSchemeLoop (acc : Str) : Str → Except GoErr (Str × Str)
  | [] => .error .missingScheme
  | c :: rest =>
    if isAlphaChar c then repoSchemeLoop (acc ++ [c]) rest
    else if isSchemeExtra c then repoSchemeLoop (acc ++ [c]) rest
    else if c = ':' then .ok (acc, rest)
    else .error .missingScheme

/-- src/gogiturl.go getScheme, first character (digit, colon or invalid
character at position 0 all return "missing protocol scheme"). -/
def getSchemeGo : Str → Except GoErr (Str × Str)
  | [] => .error .missingScheme
  | c :: rest =>
    if isAlphaChar c then repoSchemeLoop [c] rest
    else .error .missingScheme

/-- The colon case of part_000's getscheme: the colon must be followed by
"//" (rawurl[i+1:i+3] == "//"), and the remainder returned is
rawurl[i+4:], which skips one further character (rem.drop 1); with
nothing after "//" the remainder is the empty string (so `s://` and
`s://c` both yield an empty remainder). -/
def after000Colon (acc : Str) : Str → Except GoErr (Str × Str)
  | '/' :: '/' :: rem => .ok (acc, rem.drop 1)
  | _ => .error .noScheme

/-- src/unnamed/part_000 getscheme: like gogiturl.go's copy but the colon
must be followed by "//".  Loop body for positions > 0. -/
def scheme000Loop (acc : Str) : Str → Except GoErr (Str × Str)
  | [] => .error .noScheme
  | c :: rest =>
    if isAlphaChar c then scheme000Loop (acc ++ [c]) rest
    else if isSchemeExtra c then scheme000Loop (acc ++ [c]) rest
    else if c = ':' then after000Colon acc rest
    else .error .invalidSchemeChar

/-- src/unnamed/part_000 getscheme, first character. -/
def getscheme000 : Str → Except GoErr (Str × Str)
  | [] => .error .noScheme
  | c :: rest =>
    if isAlphaChar c then scheme000Loop [c] rest
    else if isSchemeExtra c then .error .noScheme
    else if c = ':' then .error .noScheme
    else .error .invalidSchemeChar

/-- src/unnamed/part_000 mungeGitURL (the same block appears inline at
src/gogiturl.go lines 65-87): pick the delimiter colon (first colon, or
first colon at/after a ']'), then force an ssh:// scheme and replace that
colon with a slash. -/
def mungeGitURL (rawurl : Str) : Except GoErr Str :=
  match stringsIndex rawurl ']' with
  | none =>
    match stringsIndex rawurl ':' with
    | none => .error .missingDelimiter
    | some j =>
      .ok (sshHead ++ rawurl.take j ++ replaceFirst (rawurl.drop j) ':' '/')
  | some i =>
    match stringsIndex (rawurl.drop i) ':' with
    | none => .error .missingDelimiter
    | some j0 =>
      .ok (sshHead ++ rawurl.take (j0 + i) ++
        replaceFirst (rawurl.drop (j0 + i)) ':' '/')

/-- Go `url.Path[1:]` after a munged parse: drops the first path character;
on an empty path Go panics (slice bound out of range). -/
def stripMunged (u : URL) : GoResult :=
  if u.path = [] then .panic else .ok { u with path := u.path.drop 1 }

/-- src/gogiturl.go Parse/parse.  The recursion `parse(mungedurl, origrawurl)`
always re-enters with a scheme-qualified "ssh://..." string, whose colon
check and getScheme gate simply propagate the re-parse outcome, so the
recursive call is flattened into the final match. -/
def gogiturlParse (rawurl : Str) : GoResult :=
  match netURLParse rawurl with
  | .ok u => .ok u
  | .error e =>
    match stringsIndex rawurl ':' with
    | none => .err e
    | some _ =>
      match getSchemeGo rawurl with
      | .ok _ => .err e
      | .error _ =>
        match mungeGitURL rawurl with
        | .error e2 => .err e2
        | .ok munged =>
          match netURLParse munged with
          | .ok u => stripMunged u
          | .error e3 => .err e3

/-- src/unnamed/part_000 Parse.  Note two behaviours of the source kept
faithfully: a colon-free schemeless input is rewritten to "file:///"+raw;
and on any url.Parse failure the source executes `&GitURL{*url}` on the
nil url pointer, which panics. -/
def part000Parse (rawurl : Str) : GoResult :=
  match getscheme000 rawurl with
  | .ok sr =>
    if sr.2 = [] then .err .schemeOnly
    else
      match netURLParse rawurl with
      | .ok u => .ok u
      | .error _ => .panic
  | .error _ =>
    match stringsIndex rawurl ':' with
    | none =>
      match netURLParse (fileHead ++ rawurl) with
      | .ok u => stripMunged u
      | .error _ => .panic
    | some _ =>
      match mungeGitURL rawurl with
      | .error e => .err e
      | .ok munged =>
        match netURLParse munged with
        | .ok u => stripMunged u
        | .error _ => .panic

/- ### Helper lemmas -/

theorem stringsIndex_some_spec (s : Str) (k : Char) (j : Nat)
    (h : stringsIndex s k = some j) :
    s[j]? = some k ∧ containsChar (s.take j) k = false := by
  induction s generalizing j with
  | nil => simp [stringsIndex] at h
  | cons c t ih =>
    by_cases hc : c = k
    · simp [stringsIndex, hc] at h
      subst hc
      cases h
      simp [containsChar]
    · simp only [stringsIndex, if_neg hc, Option.map_eq_some'] at h
      obtain ⟨j', hj', rfl⟩ := h
      obtain ⟨h1, h2⟩ := ih j' hj'
      refine ⟨by simpa using h1, ?_⟩
      simp [containsChar, hc, h2]

theorem drop_getElem? (l : Str) : ∀ i j : Nat, (l.drop i)[j]? = l[i + j]? := by
  induction l with
  | nil => intro i j; simp
  | cons c t ih =>
    intro i j
    cases i with
    | zero => simp
    | succ i =>
      have : i + 1 + j = (i + j) + 1 := by omega
      simp [this, ih i j]

theorem drop_eq_cons_getElem? (l : Str) :
    ∀ n c, l[n]? = some c → l.drop n = c :: l.drop (n + 1) := by
  induction l with
  | nil => intro n c h; simp at h
  | cons d t ih =>
    intro n c h
    cases n with
    | zero => simp at h; simp [h]
    | succ n =>
      simp only [List.getElem?_cons_succ] at h
      simpa using ih n c h

theorem cutc_append_of_not_mem (P : Str) (k : Char) (h : ∀ c ∈ P, c ≠ k) :
    ∀ s : Str, cutc (P ++ s) k = (P ++ (cutc s k).1, (cutc s k).2) := by
  induction P with
  | nil => intro s; simp [cutc]
  | cons c P ih =>
    intro s
    have hck : c ≠ k := h c (List.mem_cons_self c P)
    have hP : ∀ c ∈ P, c ≠ k := fun x hx => h x (List.mem_cons_of_mem c hx)
    simp [cutc, hck, ih hP s]

theorem netSchemeLoop_schemey (P : Str)
    (hP : ∀ c ∈ P, isAlphaChar c = true ∨ isSchemeExtra c = true) :
    ∀ acc T orig, netSchemeLoop acc (P ++ ':' :: T) orig = .ok (acc ++ P, T) := by
  induction P with
  | nil =>
    intro acc T orig
    simp [netSchemeLoop, isAlphaChar, isSchemeExtra, isDigitChar]
  | cons c P ih =>
    intro acc T orig
    have hc := hP c (List.mem_cons_self c P)
    have hP' : ∀ x ∈ P, isAlphaChar x = true ∨ isSchemeExtra x = true :=
      fun x hx => hP x (List.mem_cons_of_mem c hx)
    by_cases ha : isAlphaChar c = true
    · simp only [List.cons_append, netSchemeLoop, if_pos ha, List.append_eq]
      rw [ih hP' (acc ++ [c]) T orig]
      simp
    · have hx : isSchemeExtra c = true := hc.resolve_left ha
      simp only [List.cons_append, netSchemeLoop, if_neg ha, if_pos hx,
        List.append_eq]
      rw [ih hP' (acc ++ [c]) T orig]
      simp

theorem netGetScheme_schemey (c : Char) (P T : Str)
    (hc : isAlphaChar c = true)
    (hP : ∀ x ∈ P, isAlphaChar x = true ∨ isSchemeExtra x = true) :
    netGetScheme (c :: P ++ ':' :: T) = .ok (c :: P, T) := by
  simp [netGetScheme, hc, netSchemeLoop_schemey P hP]

theorem after000Colon_ok_inv (acc t sch rem : Str)
    (h : after000Colon acc t = .ok (sch, rem)) :
    ∃ R, t = '/' :: '/' :: R ∧ sch = acc ∧ rem = R.drop 1 := by
  unfold after000Colon at h
  split at h
  · simp only [Except.ok.injEq, Prod.mk.injEq] at h
    exact ⟨_, rfl, h.1.symm, h.2.symm⟩
  · simp at h

theorem scheme000Loop_ok_inv :
    ∀ (s acc sch rem : Str), scheme000Loop acc s = .ok (sch, rem) →
    ∃ P R, s = P ++ ':' :: '/' :: '/' :: R ∧ sch = acc ++ P ∧
      rem = R.drop 1 ∧ (∀ c ∈ P, isAlphaChar c = true ∨ isSchemeExtra c = true) := by
  intro s
  induction s with
  | nil => intro acc sch rem h; simp [scheme000Loop] at h
  | cons c t ih =>
    intro acc sch rem h
    by_cases ha : isAlphaChar c = true
    · rw [scheme000Loop, if_pos ha] at h
      obtain ⟨P, R, ht, hs, hr, hP⟩ := ih _ _ _ h
      refine ⟨c :: P, R, by simp [ht], by simp [hs], hr, ?_⟩
      intro x hx
      rcases List.mem_cons.mp hx with rfl | hx
      · exact Or.inl ha
      · exact hP x hx
    · by_cases hx : isSchemeExtra c = true
      · rw [scheme000Loop, if_neg ha, if_pos hx] at h
        obtain ⟨P, R, ht, hs, hr, hP⟩ := ih _ _ _ h
        refine ⟨c :: P, R, by simp [ht], by simp [hs], hr, ?_⟩
        intro x hxm
        rcases List.mem_cons.mp hxm with rfl | hxm
        · exact Or.inr hx
        · exact hP x hxm
      · by_cases hcol : c = ':'
        · subst hcol
          rw [scheme000Loop, if_neg ha, if_neg hx, if_pos rfl] at h
          obtain ⟨R, ht, hs, hr⟩ := after000Colon_ok_inv acc t sch rem h
          exact ⟨[], R, by simp [ht], by simp [hs], hr, by simp⟩
        · rw [scheme000Loop, if_neg ha, if_neg hx, if_neg hcol] at h
          simp at h

theorem getscheme000_ok_inv (raw sch rem : Str)
    (h : getscheme000 raw = .ok (sch, rem)) :
    ∃ c P R, raw = c :: P ++ ':' :: '/' :: '/' :: R ∧ sch = c :: P ∧
      rem = R.drop 1 ∧ isAlphaChar c = true ∧
      (∀ x ∈ P, isAlphaChar x = true ∨ isSchemeExtra x = true) := by
  match raw with
  | [] => simp [getscheme000] at h
  | c :: t =>
    by_cases ha : isAlphaChar c = true
    · rw [getscheme000, if_pos ha] at h
      obtain ⟨P, R, ht, hs, hr, hP⟩ := scheme000Loop_ok_inv t [c] sch rem h
      exact ⟨c, P, R, by simp [ht], by simpa using hs, hr, ha, hP⟩
    · rw [getscheme000, if_neg ha] at h
      by_cases hx : isSchemeExtra c = true
      · rw [if_pos hx] at h; simp at h
      · rw [if_neg hx] at h
        by_cases hcol : c = ':'
        · rw [if_pos hcol] at h; simp at h
        · rw [if_neg hcol] at h; simp at h

theorem parseAuthPath_ok_scheme (scheme rest1 rawQuery : Str) (forceQuery : Bool)
    (u : URL) (h : parseAuthPath scheme rest1 rawQuery forceQuery = .ok u) :
    u.scheme = scheme := by
  unfold parseAuthPath at h
  split at h
  · split at h
    · simp at h
    · split at h
      · simp at h
      · simp only [Except.ok.injEq] at h
        subst h; rfl
  · split at h
    · simp at h
    · simp only [Except.ok.injEq] at h
      subst h; rfl

theorem parseAfterScheme_ok_scheme (scheme rest0 : Str) (u : URL)
    (h : parseAfterScheme scheme rest0 = .ok u) : u.scheme = scheme := by
  unfold parseAfterScheme at h
  split at h
  · split at h
    · simp only [Except.ok.injEq] at h
      subst h; rfl
    · split at h
      · simp at h
      · exact parseAuthPath_ok_scheme _ _ _ _ _ h
  · exact parseAuthPath_ok_scheme _ _ _ _ _ h

theorem parseNet_ok_scheme (raw : Str) (u : URL) (h : parseNet raw = .ok u) :
    ∃ sr, netGetScheme raw = .ok sr ∧ u.scheme = toLowerStr sr.1 := by
  unfold parseNet at h
  split at h
  · simp at h
  · split at h
    · next hstar =>
      simp only [Except.ok.injEq] at h
      subst h
      subst hstar
      exact ⟨([], ['*']), by rfl, by simp [toLowerStr]⟩
    · split at h
      · simp at h
      · next sr heq =>
        exact ⟨sr, heq, parseAfterScheme_ok_scheme _ _ _ h⟩

theorem netURLParse_ok_scheme (raw : Str) (u : URL) (h : netURLParse raw = .ok u) :
    ∃ sr, netGetScheme (cutc raw '#').1 = .ok sr ∧ u.scheme = toLowerStr sr.1 := by
  unfold netURLParse at h
  split at h
  · simp at h
  · next url hp =>
    split at h
    · simp only [Except.ok.injEq] at h
      subst h
      exact parseNet_ok_scheme _ _ hp
    · split at h
      · simp at h
      · simp only [Except.ok.injEq] at h
        subst h
        obtain ⟨sr, h1, h2⟩ := parseNet_ok_scheme _ _ hp
        exact ⟨sr, h1, h2⟩

theorem mungeGitURL_ok_shape (raw m : Str) (h : mungeGitURL raw = .ok m) :
    ∃ X, m = sshHead ++ X := by
  unfold mungeGitURL at h
  split at h
  · split at h
    · simp at h
    · simp only [Except.ok.injEq] at h
      exact ⟨_, by rw [← h, List.append_assoc]⟩
  · split at h
    · simp at h
    · simp only [Except.ok.injEq] at h
      exact ⟨_, by rw [← h, List.append_assoc]⟩

theorem netURLParse_sshHead_scheme (X : Str) (u : URL)
    (h : netURLParse (sshHead ++ X) = .ok u) : u.scheme = ['s', 's', 'h'] := by
  obtain ⟨sr, hg, hs⟩ := netURLParse_ok_scheme _ _ h
  rw [cutc_append_of_not_mem sshHead '#' (by decide) X] at hg
  have hred : netGetScheme (sshHead ++ (cutc X '#').1)
      = .ok (['s', 's', 'h'], '/' :: '/' :: (cutc X '#').1) := by
    have := netGetScheme_schemey 's' ['s', 'h'] ('/' :: '/' :: (cutc X '#').1)
      (by decide) (by decide)
    simpa [sshHead] using this
  rw [hred] at hg
  simp only [Except.ok.injEq] at hg
  rw [hs, ← hg]
  rfl

theorem netURLParse_fileHead_scheme (X : Str) (u : URL)
    (h : netURLParse (fileHead ++ X) = .ok u) : u.scheme = ['f', 'i', 'l', 'e'] := by
  obtain ⟨sr, hg, hs⟩ := netURLParse_ok_scheme _ _ h
  rw [cutc_append_of_not_mem fileHead '#' (by decide) X] at hg
  have hred : netGetScheme (fileHead ++ (cutc X '#').1)
      = .ok (['f', 'i', 'l', 'e'], '/' :: '/' :: '/' :: (cutc X '#').1) := by
    have := netGetScheme_schemey 'f' ['i', 'l', 'e']
      ('/' :: '/' :: '/' :: (cutc X '#').1) (by decide) (by decide)
    simpa [fileHead] using this
  rw [hred] at hg
  simp only [Except.ok.injEq] at hg
  rw [hs, ← hg]
  rfl

theorem repoSchemeLoop_err_000 :
    ∀ (s acc acc' : Str) (e : GoErr), repoSchemeLoop acc s = .error e →
    ∃ e', scheme000Loop acc' s = .error e' := by
  intro s
  induction s with
  | nil => intro acc acc' e _; exact ⟨.noScheme, rfl⟩
  | cons c t ih =>
    intro acc acc' e h
    by_cases ha : isAlphaChar c = true
    · rw [repoSchemeLoop, if_pos ha] at h
      obtain ⟨e', h'⟩ := ih _ (acc' ++ [c]) _ h
      exact ⟨e', by rw [scheme000Loop, if_pos ha]; exact h'⟩
    · by_cases hx : isSchemeExtra c = true
      · rw [repoSchemeLoop, if_neg ha, if_pos hx] at h
        obtain ⟨e', h'⟩ := ih _ (acc' ++ [c]) _ h
        exact ⟨e', by rw [scheme000Loop, if_neg ha, if_pos hx]; exact h'⟩
      · by_cases hcol : c = ':'
        · rw [repoSchemeLoop, if_neg ha, if_neg hx, if_pos hcol] at h
          simp at h
        · refine ⟨.invalidSchemeChar, ?_⟩
          rw [scheme000Loop, if_neg ha, if_neg hx, if_neg hcol]

theorem getSchemeGo_err_000 (raw : Str) (e : GoErr)
    (h : getSchemeGo raw = .error e) : ∃ e', getscheme000 raw = .error e' := by
  match raw with
  | [] => exact ⟨.noScheme, rfl⟩
  | c :: t =>
    by_cases ha : isAlphaChar c = true
    · rw [getSchemeGo, if_pos ha] at h
      obtain ⟨e', h'⟩ := repoSchemeLoop_err_000 t [c] [c] e h
      exact ⟨e', by rw [getscheme000, if_pos ha]; exact h'⟩
    · rw [getscheme000, if_neg ha]
      by_cases hx : isSchemeExtra c = true
      · exact ⟨.noScheme, by rw [if_pos hx]⟩
      · by_cases hcol : c = ':'
        · exact ⟨.noScheme, by rw [if_neg hx, if_pos hcol]⟩
        · exact ⟨.invalidSchemeChar, by rw [if_neg hx, if_neg hcol]⟩

theorem schemey_ne_hash (x : Char)
    (h : isAlphaChar x = true ∨ isSchemeExtra x = true) : x ≠ '#' := by
  intro hx
  subst hx
  rcases h with h | h
  · exact absurd h (by decide)
  · exact absurd h (by decide)

theorem stripMunged_ok_scheme (u0 u : URL) (h : stripMunged u0 = .ok u) :
    u.scheme = u0.scheme := by
  unfold stripMunged at h
  split at h
  · simp at h
  · simp only [GoResult.ok.injEq] at h
    subst h
    rfl

theorem netURLParse_schemeToken_scheme (c : Char) (P R : Str) (u : URL)
    (hc : isAlphaChar c = true)
    (hP : ∀ x ∈ P, isAlphaChar x = true ∨ isSchemeExtra x = true)
    (h : netURLParse (c :: P ++ ':' :: R) = .ok u) :
    u.scheme = toLowerStr (c :: P) := by
  obtain ⟨sr, hg, hs⟩ := netURLParse_ok_scheme _ _ h
  have hne : ∀ x ∈ c :: P ++ [':'], x ≠ '#' := by
    intro x hx
    rcases List.mem_cons.mp hx with rfl | hx'
    · exact schemey_ne_hash x (Or.inl hc)
    · rcases List.mem_append.mp hx' with hx'' | hx''
      · exact schemey_ne_hash x (hP x hx'')
      · simp only [List.mem_singleton] at hx''
        subst hx''
        decide
  have hassoc : c :: P ++ ':' :: R = (c :: P ++ [':']) ++ R := by simp
  rw [hassoc, cutc_append_of_not_mem (c :: P ++ [':']) '#' hne R] at hg
  have hred : netGetScheme ((c :: P ++ [':']) ++ (cutc R '#').1)
      = .ok (c :: P, (cutc R '#').1) := by
    have := netGetScheme_schemey c P ((cutc R '#').1) hc hP
    simpa using this
  rw [hred] at hg
  simp only [Except.ok.injEq] at hg
  rw [hs, ← hg]

theorem toLowerStr_cons_ne_nil (c : Char) (P : Str) :
    toLowerStr (c :: P) ≠ [] := by
  simp [toLowerStr]

/- ### Claims -/

/-- C1: the claim says Parse strips no character from the re-parsed path,
so that "git@github.com:user/repo.git" yields path "/user/repo.git".
The code disagrees with the spec here: the re-parse of the munged URL
"ssh://git@github.com/user/repo.git" produces path "/user/repo.git"
(third conjunct), but both implementations then execute
`url.Path = url.Path[1:]`, so Parse actually returns path
"user/repo.git" (first two conjuncts).  The spec itself calls the
non-stripping behaviour the recommended, bug-free one, so this is a bug
in the code, evaluated here at the failing input. -/
theorem C1_strip_behaviour :
    gogiturlParse ("git@github.com:user/repo.git".toList)
      = .ok { scheme := "ssh".toList,
              user := some { username := "git".toList },
              host := "github.com".toList,
              path := "user/repo.git".toList } ∧
    part000Parse ("git@github.com:user/repo.git".toList)
      = .ok { scheme := "ssh".toList,
              user := some { username := "git".toList },
              host := "github.com".toList,
              path := "user/repo.git".toList } ∧
    netURLParse ("ssh://git@github.com/user/repo.git".toList)
      = .ok { scheme := "ssh".toList,
              user := some { username := "git".toList },
              host := "github.com".toList,
              path := "/user/repo.git".toList } := by
  refine ⟨?_, ?_, ?_⟩ <;> decide

/-- C2 counterexample: the generic parser accepts "ssh://" directly
(scheme "ssh", empty host and path), but the part_000 Parse does not
return that result: it fails with the scheme-only error.  So "Parse
returns exactly the generic parser's result on every directly accepted
input" is false of part_000's Parse. -/
theorem C2_counterexample :
    netURLParse ("ssh://".toList) = .ok { scheme := "ssh".toList } ∧
    part000Parse ("ssh://".toList) = .err .schemeOnly := by
  exact ⟨by decide, by decide⟩

/-- C2 amended: for every input the generic URI parser accepts directly,
gogiturl.go's Parse succeeds and returns exactly the generic parser's
result, every component unchanged.  (part_000's Parse does not have this
property; see the counterexample.) -/
theorem C2_direct_passthrough (raw : Str) (u : URL)
    (h : netURLParse raw = .ok u) : gogiturlParse raw = .ok u := by
  simp [gogiturlParse, h]

/-- C2 witness: the amended theorem applied at a concrete accepted input. -/
theorem C2_witness :
    netURLParse ("https://example.com/repo.git".toList)
      = .ok { scheme := "https".toList, host := "example.com".toList,
              path := "/repo.git".toList } ∧
    gogiturlParse ("https://example.com/repo.git".toList)
      = .ok { scheme := "https".toList, host := "example.com".toList,
              path := "/repo.git".toList } :=
  ⟨by decide, C2_direct_passthrough _ _ (by decide)⟩

/-- C3 counterexample: "foo" contains no colon, yet Parse does not fail:
the generic parser accepts "foo" as a relative URI reference, so
gogiturl.go's Parse succeeds (scheme empty, path "foo"); part_000's
Parse also succeeds and moreover has rewritten the input (to
"file:///foo", yielding scheme "file"). -/
theorem C3_counterexample :
    gogiturlParse ("foo".toList) = .ok { path := "foo".toList } ∧
    part000Parse ("foo".toList)
      = .ok { scheme := "file".toList, path := "foo".toList } := by
  exact ⟨by decide, by decide⟩

/-- C3 amended: for every colon-free input on which the direct generic
parse fails, gogiturl.go's Parse propagates that error and performs no
rewriting; a colon-free input the generic parser accepts makes Parse
succeed instead (see the counterexample; part_000's Parse never
propagates here — it rewrites colon-free inputs to file:/// form). -/
theorem C3_no_colon_propagates (raw : Str) (e : GoErr)
    (hc : stringsIndex raw ':' = none) (h : netURLParse raw = .error e) :
    gogiturlParse raw = .err e := by
  simp [gogiturlParse, h, hc]

/-- C3 witness: the amended theorem applied at "%", a colon-free input the
generic parser rejects (truncated percent escape). -/
theorem C3_witness :
    stringsIndex ("%".toList) ':' = none ∧
    netURLParse ("%".toList) = .error (.escapeError ("%".toList)) ∧
    gogiturlParse ("%".toList) = .err (.escapeError ("%".toList)) :=
  ⟨by decide, by decide, C3_no_colon_propagates _ _ (by decide) (by decide)⟩

/-- C4 counterexample: on "ssh://" the claim requires Parse to fail with
ErrSchemeOnly, but gogiturl.go's Parse succeeds: the generic parser
accepts "ssh://" and the result is returned unchanged.  (Only part_000
implements the scheme-only check.) -/
theorem C4_counterexample :
    gogiturlParse ("ssh://".toList) = .ok { scheme := "ssh".toList } ∧
    getscheme000 ("ssh://".toList) = .ok ("ssh".toList, []) := by
  exact ⟨by decide, by decide⟩

/-- C4 amended: for every input whose part_000 scheme scan succeeds with an
empty remainder (i.e. the input is `scheme://`, or `scheme://c` by the
scanner's remainder off-by-one), the part_000 Parse fails with
ErrSchemeOnly; gogiturl.go's Parse instead returns the directly parsed
URL (see the counterexample). -/
theorem C4_scheme_only (raw sch : Str)
    (h : getscheme000 raw = .ok (sch, [])) :
    part000Parse raw = .err .schemeOnly := by
  simp [part000Parse, h]

/-- C4 witness: the amended theorem applied at "ssh://". -/
theorem C4_witness :
    getscheme000 ("ssh://".toList) = .ok ("ssh".toList, []) ∧
    part000Parse ("ssh://".toList) = .err .schemeOnly :=
  ⟨by decide, C4_scheme_only _ ("ssh".toList) (by decide)⟩


/-- C5 counterexample: gogiturl.go's Parse can succeed with an EMPTY
scheme: the colon-free relative reference "foo" is accepted directly and
returned unchanged, scheme "".  part_000's Parse on the same input
returns a rewritten URL whose scheme is "file", not "ssh", although the
input was rewritten before parsing.  Both halves of the claim fail as
stated. -/
theorem C5_counterexample :
    gogiturlParse ("foo".toList) = .ok { path := "foo".toList } ∧
    part000Parse ("foo".toList)
      = .ok { scheme := "file".toList, path := "foo".toList } ∧
    ({ path := "foo".toList } : URL).scheme = [] := by
  exact ⟨by decide, by decide, rfl⟩

/-- C5 amended: (1) whenever the direct parse fails and gogiturl.go's
Parse nevertheless succeeds (i.e. the input was rewritten by the scp
munge), the returned scheme is "ssh"; (2) whenever part_000's Parse
takes the scp-munge branch (its scheme scan fails and a colon is
present) and succeeds, the returned scheme is likewise "ssh";
(3) part_000's Parse always returns a non-empty scheme on success
("ssh" or "file" for rewritten inputs, the input's own scheme
otherwise).  gogiturl.go does not guarantee a non-empty scheme (see the
counterexample). -/
theorem C5_scheme_guarantee :
    (∀ raw e u, netURLParse raw = .error e → gogiturlParse raw = .ok u →
      u.scheme = ['s', 's', 'h']) ∧
    (∀ raw e' u, getscheme000 raw = .error e' →
      stringsIndex raw ':' ≠ none → part000Parse raw = .ok u →
      u.scheme = ['s', 's', 'h']) ∧
    (∀ raw u, part000Parse raw = .ok u → u.scheme ≠ []) := by
  refine ⟨?_, ?_, ?_⟩
  · intro raw e u h1 h2
    unfold gogiturlParse at h2
    rw [h1] at h2
    split at h2
    · next u0 heq => exact absurd heq (by simp)
    · next e3 heq =>
      injection heq with he
      subst he
      split at h2
      · simp at h2
      · split at h2
        · simp at h2
        · split at h2
          · simp at h2
          · next munged heqm =>
            split at h2
            · next u0 heqn =>
              obtain ⟨X, hX⟩ := mungeGitURL_ok_shape _ _ heqm
              rw [hX] at heqn
              rw [stripMunged_ok_scheme u0 u h2]
              exact netURLParse_sshHead_scheme X u0 heqn
            · simp at h2
  · intro raw e' u h3 hcol h
    unfold part000Parse at h
    rw [h3] at h
    split at h
    · next sr heq => exact absurd heq (by simp)
    · next e2 heq =>
      split at h
      · next heqc => exact absurd heqc hcol
      · next k heqc =>
        split at h
        · simp at h
        · next munged hm =>
          split at h
          · next u0 hn =>
            obtain ⟨X, hX⟩ := mungeGitURL_ok_shape _ _ hm
            rw [hX] at hn
            rw [stripMunged_ok_scheme u0 u h]
            exact netURLParse_sshHead_scheme X u0 hn
          · simp at h
  · intro raw u h
    unfold part000Parse at h
    split at h
    · next sr hsr =>
      split at h
      · simp at h
      · split at h
        · next u0 hn =>
          simp only [GoResult.ok.injEq] at h
          subst h
          obtain ⟨c, P, R, hraw, _, _, hc, hP⟩ :=
            getscheme000_ok_inv raw sr.1 sr.2 (by simpa using hsr)
          rw [hraw] at hn
          have hsch : u0.scheme = toLowerStr (c :: P) :=
            netURLParse_schemeToken_scheme c P ('/' :: '/' :: R) u0 hc hP hn
          rw [hsch]
          exact toLowerStr_cons_ne_nil c P
        · simp at h
    · split at h
      · split at h
        · next u0 hn =>
          rw [stripMunged_ok_scheme u0 u h,
            netURLParse_fileHead_scheme _ u0 hn]
          decide
        · simp at h
      · split at h
        · simp at h
        · next munged hm =>
          split at h
          · next u0 hn =>
            obtain ⟨X, hX⟩ := mungeGitURL_ok_shape _ _ hm
            rw [hX] at hn
            rw [stripMunged_ok_scheme u0 u h,
              netURLParse_sshHead_scheme X u0 hn]
            decide
          · simp at h

/-- C5 witness: all parts applied at concrete inputs: the shorthand
"10.10.10.10:/path/to/repo.git/" is rejected by the direct parse and
accepted after rewriting with scheme "ssh" (gogiturl.go part); the
shorthand "git@github.com:user/repo.git" takes part_000's scp-munge
branch and likewise comes back with scheme "ssh"; and part_000 on
"foo" succeeds with the non-empty scheme "file". -/
theorem C5_witness :
    netURLParse ("10.10.10.10:/path/to/repo.git/".toList)
      = .error .firstSegmentColon ∧
    ({ scheme := "ssh".toList, host := "10.10.10.10".toList,
       path := "/path/to/repo.git/".toList } : URL).scheme = ['s', 's', 'h'] ∧
    getscheme000 ("git@github.com:user/repo.git".toList)
      = .error .invalidSchemeChar ∧
    ({ scheme := "ssh".toList, user := some { username := "git".toList },
       host := "github.com".toList,
       path := "user/repo.git".toList } : URL).scheme = ['s', 's', 'h'] ∧
    ({ scheme := "file".toList, path := "foo".toList } : URL).scheme ≠ [] :=
  ⟨by decide,
   C5_scheme_guarantee.1 ("10.10.10.10:/path/to/repo.git/".toList)
     .firstSegmentColon _ (by decide) (by decide),
   by decide,
   C5_scheme_guarantee.2.1 ("git@github.com:user/repo.git".toList)
     .invalidSchemeChar _ (by decide) (by decide) (by decide),
   C5_scheme_guarantee.2.2 ("foo".toList) _ (by decide)⟩

/-- C6: when the input contains ']', the delimiter colon picked by the
munge is the first colon at or after the ']' index: the segment between
the ']' index and the chosen position holds no colon, the chosen
position holds a colon, and the munge output forces ssh:// and replaces
exactly that colon by a slash.  Concretely, "[::1]:/repo.git" parses to
host "[::1]" and path "/repo.git" under both implementations, the
colons inside the brackets never being treated as the delimiter. -/
theorem C6_bracket_delimiter :
    (∀ (raw : Str) (i j : Nat), stringsIndex raw ']' = some i →
      stringsIndex (raw.drop i) ':' = some j →
      containsChar ((raw.drop i).take j) ':' = false ∧
      raw[i + j]? = some ':' ∧
      mungeGitURL raw = .ok (sshHead ++ raw.take (i + j) ++
        '/' :: raw.drop (i + j + 1))) ∧
    gogiturlParse ("[::1]:/repo.git".toList)
      = .ok { scheme := "ssh".toList, host := "[::1]".toList,
              path := "/repo.git".toList } ∧
    part000Parse ("[::1]:/repo.git".toList)
      = .ok { scheme := "ssh".toList, host := "[::1]".toList,
              path := "/repo.git".toList } := by
  refine ⟨?_, by decide, by decide⟩
  intro raw i j hi hj
  obtain ⟨hget, hnc⟩ := stringsIndex_some_spec _ _ _ hj
  have hgr : raw[i + j]? = some ':' := by
    rw [← drop_getElem? raw i j]
    exact hget
  refine ⟨hnc, hgr, ?_⟩
  have hm : mungeGitURL raw
      = .ok (sshHead ++ raw.take (j + i) ++
          replaceFirst (raw.drop (j + i)) ':' '/') := by
    simp [mungeGitURL, hi, hj]
  rw [hm, Nat.add_comm j i,
    drop_eq_cons_getElem? raw (i + j) ':' hgr]
  simp [replaceFirst]

/-- C6 witness: the delimiter property applied at "[::1]:/repo.git",
where the ']' sits at index 4 and the chosen colon at index 5. -/
theorem C6_witness :
    stringsIndex ("[::1]:/repo.git".toList) ']' = some 4 ∧
    stringsIndex (("[::1]:/repo.git".toList).drop 4) ':' = some 1 ∧
    (containsChar ((("[::1]:/repo.git".toList).drop 4).take 1) ':' = false ∧
     ("[::1]:/repo.git".toList)[4 + 1]? = some ':' ∧
     mungeGitURL ("[::1]:/repo.git".toList)
       = .ok (sshHead ++ ("[::1]:/repo.git".toList).take (4 + 1) ++
           '/' :: ("[::1]:/repo.git".toList).drop (4 + 1 + 1))) :=
  ⟨by decide, by decide,
   C6_bracket_delimiter.1 ("[::1]:/repo.git".toList) 4 1 (by decide) (by decide)⟩

/-- C7 counterexample: "a://%zz" fails the direct parse (invalid escape in
the host) and its scheme scan reaches a colon after the non-empty token
"a", yet part_000's Parse does not propagate the original error: it
dereferences the nil URL pointer and panics. -/
theorem C7_counterexample :
    netURLParse ("a://%zz".toList) = .error (.escapeError ("%zz".toList)) ∧
    getSchemeGo ("a://%zz".toList) = .ok ("a".toList, "//%zz".toList) ∧
    part000Parse ("a://%zz".toList) = .panic := by
  exact ⟨by decide, by decide, by decide⟩

/-- C7 amended: for every input on which the direct parse fails and the
strict scheme scan succeeds (a colon preceded by a non-empty scheme
token), gogiturl.go's parse treats the input as not shorthand and
propagates the original error without rewriting.  part_000's Parse does
not share this property: it panics on direct-parse failures and, when
the scheme token is not followed by "//", rewrites anyway (see the
counterexample). -/
theorem C7_scheme_token_propagates (raw : Str) (e : GoErr) (sr : Str × Str)
    (h1 : netURLParse raw = .error e) (h2 : getSchemeGo raw = .ok sr) :
    gogiturlParse raw = .err e := by
  unfold gogiturlParse
  rw [h1]
  cases hidx : stringsIndex raw ':' with
  | none => rfl
  | some k => rw [h2]

/-- C7 witness: the amended theorem applied at "a://%zz". -/
theorem C7_witness :
    netURLParse ("a://%zz".toList) = .error (.escapeError ("%zz".toList)) ∧
    getSchemeGo ("a://%zz".toList) = .ok ("a".toList, "//%zz".toList) ∧
    gogiturlParse ("a://%zz".toList) = .err (.escapeError ("%zz".toList)) :=
  ⟨by decide, by decide,
   C7_scheme_token_propagates _ _ ("a".toList, "//%zz".toList)
     (by decide) (by decide)⟩

/-- C8 counterexample: "?a:[]" is a shorthand candidate in the claim's
sense (the scan finds no scheme token, a colon is present, ']' is
present with no colon at or after it), yet gogiturl.go's Parse does not
fail with the missing-delimiter error: the direct parse succeeds (the
colon hides in the query), so Parse returns that URL. -/
theorem C8_counterexample :
    getSchemeGo ("?a:[]".toList) = .error .missingScheme ∧
    stringsIndex ("?a:[]".toList) ':' = some 2 ∧
    stringsIndex ("?a:[]".toList) ']' = some 4 ∧
    stringsIndex (("?a:[]".toList).drop 4) ':' = none ∧
    gogiturlParse ("?a:[]".toList) = .ok { rawQuery := "a:[]".toList } := by
  exact ⟨by decide, by decide, by decide, by decide, by decide⟩

/-- C8 amended: with the extra hypothesis (needed for gogiturl.go) that
the direct parse fails, both implementations fail with the
missing-delimiter error on shorthand candidates whose ']' is followed
by no colon; part_000 needs no direct-parse hypothesis since it never
attempts a direct parse on inputs without a scheme://. -/
theorem C8_missing_delimiter :
    (∀ (raw : Str) (e e' : GoErr) (i : Nat),
      netURLParse raw = .error e → stringsIndex raw ':' ≠ none →
      getSchemeGo raw = .error e' → stringsIndex raw ']' = some i →
      stringsIndex (raw.drop i) ':' = none →
      gogiturlParse raw = .err .missingDelimiter) ∧
    (∀ (raw : Str) (e' : GoErr) (i : Nat),
      getscheme000 raw = .error e' → stringsIndex raw ':' ≠ none →
      stringsIndex raw ']' = some i → stringsIndex (raw.drop i) ':' = none →
      part000Parse raw = .err .missingDelimiter) := by
  have hmun : ∀ (raw : Str) (i : Nat), stringsIndex raw ']' = some i →
      stringsIndex (raw.drop i) ':' = none →
      mungeGitURL raw = .error .missingDelimiter := by
    intro raw i hi hni
    simp [mungeGitURL, hi, hni]
  constructor
  · intro raw e e' i h1 hc h2 hi hni
    unfold gogiturlParse
    rw [h1]
    cases hidx : stringsIndex raw ':' with
    | none => exact absurd hidx hc
    | some k => rw [h2, hmun raw i hi hni]
  · intro raw e' i h3 hc hi hni
    unfold part000Parse
    rw [h3]
    cases hidx : stringsIndex raw ':' with
    | none => exact absurd hidx hc
    | some k => rw [hmun raw i hi hni]

/-- C8 witness: both parts applied at "@a:[]", a shorthand candidate whose
direct parse fails (colon in the first path segment) and whose ']' is
followed by no colon. -/
theorem C8_witness :
    netURLParse ("@a:[]".toList) = .error .firstSegmentColon ∧
    getSchemeGo ("@a:[]".toList) = .error .missingScheme ∧
    getscheme000 ("@a:[]".toList) = .error .invalidSchemeChar ∧
    gogiturlParse ("@a:[]".toList) = .err .missingDelimiter ∧
    part000Parse ("@a:[]".toList) = .err .missingDelimiter :=
  ⟨by decide, by decide, by decide,
   C8_missing_delimiter.1 ("@a:[]".toList) .firstSegmentColon .missingScheme 4
     (by decide) (by decide) (by decide) (by decide) (by decide),
   C8_missing_delimiter.2 ("@a:[]".toList) .invalidSchemeChar 4
     (by decide) (by decide) (by decide) (by decide)⟩

/-- C9: parsing the shorthand "10.10.10.10:/path/to/repo.git/" succeeds
with scheme "ssh", host "10.10.10.10" and path "/path/to/repo.git/",
under both implementations. -/
theorem C9_ip_literal_path :
    gogiturlParse ("10.10.10.10:/path/to/repo.git/".toList)
      = .ok { scheme := "ssh".toList, host := "10.10.10.10".toList,
              path := "/path/to/repo.git/".toList } ∧
    part000Parse ("10.10.10.10:/path/to/repo.git/".toList)
      = .ok { scheme := "ssh".toList, host := "10.10.10.10".toList,
              path := "/path/to/repo.git/".toList } := by
  exact ⟨by decide, by decide⟩

/-- C10 counterexample: the two implementations do not return equal
results on every input: on "ssh://" gogiturl.go's Parse succeeds while
part_000's Parse fails with the scheme-only error. -/
theorem C10_counterexample :
    gogiturlParse ("ssh://".toList) ≠ part000Parse ("ssh://".toList) ∧
    gogiturlParse ("ssh://".toList) = .ok { scheme := "ssh".toList } ∧
    part000Parse ("ssh://".toList) = .err .schemeOnly := by
  exact ⟨by decide, by decide, by decide⟩

/-- C10 amended: on the inputs that reach the scp munge in gogiturl.go
(direct parse fails, a colon is present, the strict scheme scan fails),
the two implementations succeed on exactly the same inputs with equal
results (they run the identical munge and strip); elsewhere they
diverge, and on munge re-parse failures gogiturl.go returns the error
while part_000 panics. -/
theorem C10_munge_agreement (raw : Str) (e e' : GoErr)
    (h1 : netURLParse raw = .error e) (hc : stringsIndex raw ':' ≠ none)
    (h2 : getSchemeGo raw = .error e') (u : URL) :
    gogiturlParse raw = .ok u ↔ part000Parse raw = .ok u := by
  obtain ⟨e'', h3⟩ := getSchemeGo_err_000 raw e' h2
  cases hidx : stringsIndex raw ':' with
  | none => exact absurd hidx hc
  | some k =>
    cases hm : mungeGitURL raw with
    | error e2 =>
      simp [gogiturlParse, part000Parse, h1, h2, h3, hidx, hm]
    | ok m =>
      cases hn : netURLParse m with
      | ok u0 =>
        simp [gogiturlParse, part000Parse, h1, h2, h3, hidx, hm, hn]
      | error e3 =>
        simp [gogiturlParse, part000Parse, h1, h2, h3, hidx, hm, hn]

/-- C10 witness: the agreement applied at the shorthand
"git@github.com:user/repo.git", on which both implementations return
the same (stripped) result. -/
theorem C10_witness :
    netURLParse ("git@github.com:user/repo.git".toList)
      = .error .firstSegmentColon ∧
    (gogiturlParse ("git@github.com:user/repo.git".toList)
        = .ok { scheme := "ssh".toList,
                user := some { username := "git".toList },
                host := "github.com".toList,
                path := "user/repo.git".toList }
      ↔ part000Parse ("git@github.com:user/repo.git".toList)
        = .ok { scheme := "ssh".toList,
                user := some { username := "git".toList },
                host := "github.com".toList,
                path := "user/repo.git".toList }) :=
  ⟨by decide,
   C10_munge_agreement ("git@github.com:user/repo.git".toList)
     .firstSegmentColon .missingScheme (by decide) (by decide) (by decide) _⟩
